import Mathlib

/- Verification development for the cron Job scheduling library
   (pkg/cron/cron.go).  The Job data type, its fluent configuration API,
   the start/stop lifecycle, the JSON serialization and the scheduling
   loop are embedded shallowly; the loop and the concurrent API calls
   are modelled by a labelled small-step transition relation on a system
   state, each lock-protected section of the Go code becoming one atomic
   transition. -/

/-- Timezones are modelled by their resolved identifier; the Go code
stores an already-resolved time.Location value. -/
abbrev Tz := String

/-- time.UTC, the default timezone of a Job. -/
def UTC : Tz := "UTC"

/-- The schedule evaluator interface (robfig cron.Schedule, an external
collaborator of the repository): given the timezone the wall-clock time
is rendered in and the current instant, Next returns the next firing
instant.  Instants are integers (nanoseconds since the epoch). -/
abbrev CronSched := Tz → Int → Int

/-- One node of the context tree built by context.WithCancel: an
optional parent context and this node's own cancellation flag. -/
structure CtxNode where
  parent : Option Nat
  flag : Bool
  deriving DecidableEq

/-- The contexts created so far; a context handle is an index into this
list, and every node's parent was created before it (parent index below
own index), as context.WithCancel guarantees. -/
abbrev CtxStore := List CtxNode

/-- Fuel-bounded reading of a context's Done signal: a context's Done
channel is closed when its own flag or any ancestor's flag is set.
The parent chain descends strictly in the index, so fuel i+1 is enough
to decide the signal of context i. -/
def ctxDoneFuel (s : CtxStore) : Nat → Nat → Bool
  | 0, _ => false
  | fuel + 1, i =>
    match s[i]? with
    | none => false
    | some n =>
      n.flag || (match n.parent with
        | none => false
        | some p => if p < i then ctxDoneFuel s fuel p else false)

/-- Whether context i's Done signal has fired: its own cancel flag or a
transitive parent's cancel flag is set. -/
def ctxDone (s : CtxStore) (i : Nat) : Bool :=
  ctxDoneFuel s (i + 1) i

/-- context.WithCancel: append a fresh uncancelled node whose parent is
the given handle (none models context.Background), returning the new
store and the fresh handle. -/
def withCancel (s : CtxStore) (parent : Option Nat) : CtxStore × Nat :=
  (s ++ [{ parent := parent, flag := false }], s.length)

/-- Invoking a context's CancelFunc: set the node's own flag. -/
def cancelCtx (s : CtxStore) (i : Nat) : CtxStore :=
  match s[i]? with
  | none => s
  | some n => s.set i { n with flag := true }

theorem ctxDoneFuel_fuel_irrel (s : CtxStore) :
    ∀ f₁ f₂ i, i < f₁ → i < f₂ → ctxDoneFuel s f₁ i = ctxDoneFuel s f₂ i := by
  intro f₁
  induction f₁ with
  | zero => intro f₂ i h₁ _; omega
  | succ f ih =>
    intro f₂ i h₁ h₂
    cases f₂ with
    | zero => omega
    | succ f' =>
      simp only [ctxDoneFuel]
      cases hg : s[i]? with
      | none => rfl
      | some n =>
        obtain ⟨np, nf⟩ := n
        cases np with
        | none => rfl
        | some p =>
          simp only
          by_cases hp : p < i
          · simp only [hp, if_true]
            rw [ih f' p (by omega) (by omega)]
          · simp only [hp, if_false]

theorem ctxDone_unfold (s : CtxStore) (i : Nat) :
    ctxDone s i =
      match s[i]? with
      | none => false
      | some n =>
        n.flag || (match n.parent with
          | none => false
          | some p => if p < i then ctxDone s p else false) := by
  show ctxDoneFuel s (i + 1) i = _
  simp only [ctxDoneFuel]
  cases hg : s[i]? with
  | none => rfl
  | some n =>
    obtain ⟨np, nf⟩ := n
    cases np with
    | none => rfl
    | some p =>
      simp only
      by_cases hp : p < i
      · simp only [hp, if_true, ctxDone]
        rw [ctxDoneFuel_fuel_irrel s i (p + 1) p (by omega) (by omega)]
      · simp only [hp, if_false]

/-- The Done signal of context i is decided by the store entries at
indices at most i. -/
theorem ctxDone_congr (s₁ s₂ : CtxStore) (i : Nat)
    (h : ∀ k, k ≤ i → s₁[k]? = s₂[k]?) :
    ctxDone s₁ i = ctxDone s₂ i := by
  induction i using Nat.strong_induction_on with
  | _ i ih =>
    rw [ctxDone_unfold, ctxDone_unfold, h i (Nat.le_refl i)]
    cases hg : s₂[i]? with
    | none => rfl
    | some n =>
      obtain ⟨np, nf⟩ := n
      cases np with
      | none => rfl
      | some p =>
        simp only
        by_cases hp : p < i
        · simp only [hp, if_true]
          rw [ih p hp (fun k hk => h k (by omega))]
        · simp only [hp, if_false]

theorem cancelCtx_length (s : CtxStore) (i : Nat) :
    (cancelCtx s i).length = s.length := by
  unfold cancelCtx
  cases s[i]? with
  | none => rfl
  | some n => exact s.length_set i _

theorem cancelCtx_getElem?_ne (s : CtxStore) (i k : Nat) (h : k ≠ i) :
    (cancelCtx s i)[k]? = s[k]? := by
  unfold cancelCtx
  cases s[i]? with
  | none => rfl
  | some n => exact List.getElem?_set_ne (Ne.symm h)

theorem cancelCtx_getElem?_self (s : CtxStore) (i : Nat) (n : CtxNode)
    (h : s[i]? = some n) :
    (cancelCtx s i)[i]? = some { n with flag := true } := by
  unfold cancelCtx
  rw [h]
  have hlt : i < s.length := by
    by_contra hge
    rw [List.getElem?_eq_none (by omega)] at h
    exact Option.noConfusion h
  simp [List.getElem?_set_self hlt]

/-- Cancelling a context makes its own Done signal fire. -/
theorem ctxDone_cancelCtx_self (s : CtxStore) (i : Nat) (n : CtxNode)
    (h : s[i]? = some n) : ctxDone (cancelCtx s i) i = true := by
  rw [ctxDone_unfold, cancelCtx_getElem?_self s i n h]
  simp

/-- Cancelling any context never un-fires another context's Done signal. -/
theorem ctxDone_cancelCtx_mono (s : CtxStore) (i j : Nat)
    (h : ctxDone s j = true) : ctxDone (cancelCtx s i) j = true := by
  induction j using Nat.strong_induction_on with
  | _ j ih =>
    rw [ctxDone_unfold] at h
    rw [ctxDone_unfold]
    by_cases hij : j = i
    · subst hij
      cases hg : s[j]? with
      | none => rw [hg] at h; exact absurd h (by simp)
      | some n => rw [cancelCtx_getElem?_self s j n hg]; simp
    · rw [cancelCtx_getElem?_ne s i j hij]
      cases hg : s[j]? with
      | none => rw [hg] at h; exact absurd h (by simp)
      | some n =>
        rw [hg] at h
        obtain ⟨np, nf⟩ := n
        cases np with
        | none => exact h
        | some p =>
          simp only at h ⊢
          rcases Bool.or_eq_true_iff.mp h with hf | hrec
          · rw [hf]; simp
          · by_cases hp : p < j
            · simp only [hp, if_true] at hrec ⊢
              rw [ih p hp hrec]
              simp
            · simp only [hp, if_false] at hrec
              exact absurd hrec (by simp)

/-- Appending fresh contexts does not change existing Done signals. -/
theorem ctxDone_append (s : CtxStore) (n : CtxNode) (j : Nat)
    (h : j < s.length) : ctxDone (s ++ [n]) j = ctxDone s j :=
  ctxDone_congr _ _ j (fun k hk => List.getElem?_append_left (by omega))

/-- Cancelling a context created later does not change the Done signal
of an earlier context (child cancellation does not reach the parent). -/
theorem ctxDone_cancelCtx_of_lt (s : CtxStore) (c p : Nat) (h : p < c) :
    ctxDone (cancelCtx s c) p = ctxDone s p :=
  ctxDone_congr _ _ p (fun k hk => cancelCtx_getElem?_ne s c k (by omega))

/-- A fired parent makes every derived child's Done signal fire. -/
theorem ctxDone_of_parent (s : CtxStore) (c p : Nat) (f : Bool)
    (hc : s[c]? = some { parent := some p, flag := f }) (hp : p < c)
    (hdone : ctxDone s p = true) : ctxDone s c = true := by
  rw [ctxDone_unfold, hc]
  simp only [hp, if_true, hdone]
  simp

/-- The Job struct of pkg/cron/cron.go.  Callback function values are
identified by an abstract tag (Nat); a nil Fn is none.  Ctx is the
handle of the job's current context and cancelFunc the handle that the
stored CancelFunc cancels (context.WithCancel always returns the pair
together, so the two coincide).  The RWMutex is not a data field here:
each lock-protected section becomes one atomic transition of the step
relation further below. -/
structure Job where
  scheduleStr : String
  Schedule : CronSched
  Blocking : Bool
  Timezone : Tz
  Ctx : Nat
  cancelFunc : Nat
  Fn : Option Nat
  isRunning : Bool

/-- A JSON field value of the marshalled Job record. -/
inductive JField where
  | str (s : String)
  | bool (b : Bool)
  | sched (sc : CronSched)
  | tz (l : Tz)

/-- MarshalJSON of Job: the anonymous struct embeds an Alias of Job, so
the record carries the extra schedule_str field plus every exported,
untagged field of Job (Schedule, Blocking, Timezone); Ctx and Fn carry
the json:"-" tag and the unexported scheduleStr, cancelFunc, isRunning
and mutex fields are invisible to encoding/json. -/
def marshalJSON (j : Job) : List (String × JField) :=
  [("schedule_str", .str j.scheduleStr),
   ("schedule", .sched j.Schedule),
   ("blocking", .bool j.Blocking),
   ("timezone", .tz j.Timezone)]

/-- strings.Fields: split on runs of whitespace, dropping empty fields.
The accumulator collects the current field in reverse. -/
def fieldsAux : List Char → List Char → List (List Char)
  | [], acc => if acc.isEmpty then [] else [acc.reverse]
  | c :: cs, acc =>
    if c.isWhitespace then
      if acc.isEmpty then fieldsAux cs [] else acc.reverse :: fieldsAux cs []
    else fieldsAux cs (c :: acc)

/-- len(strings.Fields(scheduleStr)): the number of whitespace-delimited
fields of the expression. -/
def countFields (s : String) : Nat :=
  (fieldsAux s.data []).length

/-- The two parser configurations Schedule chooses between: the 6-field
convention with a leading seconds field, or the standard 5-field
convention. -/
inductive ParserKind where
  | withSeconds
  | standard
  deriving DecidableEq

/-- The parser configuration Schedule selects: the seconds-prefixed
parser exactly when the expression has 6 whitespace-delimited fields. -/
def parserChoice (s : String) : ParserKind :=
  if countFields s == 6 then .withSeconds else .standard

/-- The Schedule constructor.  The robfig/cron parser is an external
collaborator, so it enters as a parameter: parse k s returns the
compiled evaluator, or none when the expression is invalid under
convention k.  A none result models the constructor's panic (no Job is
produced); on success the Job is initialized with the retained
expression string, the compiled evaluator, non-blocking mode, UTC, and
a fresh cancellation handle derived from context.Background. -/
def Schedule (parse : ParserKind → String → Option CronSched)
    (store : CtxStore) (scheduleStr : String) : Option (CtxStore × Job) :=
  match parse (parserChoice scheduleStr) scheduleStr with
  | none => none
  | some sched =>
    let r := withCancel store none
    some (r.1,
      { scheduleStr := scheduleStr
        Schedule := sched
        Blocking := false
        Timezone := UTC
        Ctx := r.2
        cancelFunc := r.2
        Fn := none
        isRunning := false })

/-- SetBlocking: under the exclusive lock, overwrite the Blocking field
of the receiver and return it. -/
def SetBlocking (j : Job) (blocking : Bool) : Job :=
  { j with Blocking := blocking }

/-- SetTimezone: under the exclusive lock, overwrite the Timezone field
of the receiver and return it. -/
def SetTimezone (j : Job) (loc : Tz) : Job :=
  { j with Timezone := loc }

/-- Execute: under the exclusive lock, overwrite the Fn field of the
receiver and return it. -/
def Execute (j : Job) (fn : Nat) : Job :=
  { j with Fn := some fn }

/-- WithContext: under the exclusive lock, invoke the previous
CancelFunc (cancelling the job's existing context), then derive a fresh
cancellable context from the supplied parent and store the new pair in
the receiver, returning it. -/
def WithContext (store : CtxStore) (j : Job) (parent : Nat) :
    CtxStore × Job :=
  let store1 := cancelCtx store j.cancelFunc
  let r := withCancel store1 (some parent)
  (r.1, { j with Ctx := r.2, cancelFunc := r.2 })

/-- The per-iteration snapshot the loop takes under the read lock: the
absolute due instant of the armed one-shot timer (previousRun rendered
in the snapshotted timezone, pushed through Schedule.Next) and the
snapshotted Blocking flag. -/
structure Snap where
  due : Int
  blk : Bool
  deriving DecidableEq

/-- Program counter of one loop goroutine: at the top of the for body
(about to take the read lock), parked in the select with an armed
timer, or returned. -/
inductive PC where
  | atHead
  | waiting (sn : Snap)
  | terminated
  deriving DecidableEq

/-- One loop goroutine launched by Start: the Done channel it selects
on is the one captured from j.Ctx when Start ran, and never re-read. -/
structure LoopTask where
  doneCtx : Nat
  pc : PC
  deriving DecidableEq

/-- One callback invocation performed by the loop: the Fn and Ctx the
loop read from the job at invocation time, and the Blocking snapshot
that chose between the synchronous and the detached call. -/
structure FireRec where
  fn : Option Nat
  ctx : Nat
  blk : Bool
  deriving DecidableEq

/-- The whole system: the job (shared mutable configuration), the
context heap, the wall clock, the loop goroutines spawned so far and
the log of callback invocations. -/
structure Sys where
  job : Job
  store : CtxStore
  now : Int
  tasks : List LoopTask
  fired : List FireRec

/-- The read-locked head of the loop body: read the job's timezone,
evaluator and Blocking flag, compute the next fire instant and arm the
one-shot timer, then release the read lock and park in the select. -/
def armTask (s : Sys) (i : Nat) : Sys :=
  match s.tasks[i]? with
  | some t =>
    let sn : Snap :=
      { due := s.job.Schedule s.job.Timezone s.now, blk := s.job.Blocking }
    { s with tasks := s.tasks.set i { t with pc := .waiting sn } }
  | none => s

/-- The timer branch of the select: invoke j.Fn with j.Ctx (both read
from the job at invocation time, without the lock), synchronously or
as a detached goroutine according to the snapshotted Blocking flag,
and return to the top of the loop body. -/
def fireTask (s : Sys) (i : Nat) : Sys :=
  match s.tasks[i]? with
  | some t =>
    match t.pc with
    | .waiting sn =>
      { s with
          tasks := s.tasks.set i { t with pc := .atHead },
          fired := s.fired ++
            [{ fn := s.job.Fn, ctx := s.job.Ctx, blk := sn.blk }] }
    | _ => s
  | none => s

/-- The done branch of the select: stop the pending timer and return
from the goroutine. -/
def termTask (s : Sys) (i : Nat) : Sys :=
  match s.tasks[i]? with
  | some t => { s with tasks := s.tasks.set i { t with pc := .terminated } }
  | none => s

/-- Wall-clock time passing. -/
def advClock (s : Sys) (d : Int) : Sys :=
  { s with now := s.now + d }

/-- Start: under the exclusive lock, return at once if no callback is
configured or the job is already running; otherwise set isRunning and
launch one loop goroutine, whose select will forever use the Done
channel captured from j.Ctx here. -/
def startSys (s : Sys) : Sys :=
  if s.job.Fn.isNone || s.job.isRunning then s
  else
    { s with
        job := { s.job with isRunning := true },
        tasks := s.tasks ++ [{ doneCtx := s.job.Ctx, pc := .atHead }] }

/-- Stop: under the exclusive lock, if the job is running, clear
isRunning and invoke the current CancelFunc; otherwise do nothing. -/
def stopSys (s : Sys) : Sys :=
  if s.job.isRunning then
    { s with
        job := { s.job with isRunning := false },
        store := cancelCtx s.store s.job.cancelFunc }
  else s

/-- SetBlocking as a system transition. -/
def sysSetBlocking (s : Sys) (b : Bool) : Sys :=
  { s with job := SetBlocking s.job b }

/-- SetTimezone as a system transition. -/
def sysSetTimezone (s : Sys) (tz : Tz) : Sys :=
  { s with job := SetTimezone s.job tz }

/-- Execute as a system transition. -/
def sysExecute (s : Sys) (f : Nat) : Sys :=
  { s with job := Execute s.job f }

/-- WithContext as a system transition. -/
def sysWithContext (s : Sys) (p : Nat) : Sys :=
  let r := WithContext s.store s.job p
  { s with store := r.1, job := r.2 }

/-- The environment creating a context of its own (for example via
signal.NotifyContext or context.WithDeadline in the callers). -/
def envNewCtx (s : Sys) (p : Option Nat) : Sys :=
  { s with store := (withCancel s.store p).1 }

/-- The environment cancelling a context it owns (deadline expiry or an
explicit external cancel). -/
def envCancel (s : Sys) (i : Nat) : Sys :=
  { s with store := cancelCtx s.store i }

/-- The label of a system transition. -/
inductive Act where
  | tick (d : Int)
  | arm (i : Nat)
  | fire (i : Nat)
  | cancelSeen (i : Nat)
  | setBlocking (b : Bool)
  | setTimezone (tz : Tz)
  | execute (f : Nat)
  | withContext (p : Nat)
  | start
  | stop
  | newCtx (p : Option Nat)
  | extCancel (i : Nat)
  deriving DecidableEq

/-- The labelled small-step transition relation of the running system.
Loop steps follow the goroutine of Start: arm requires the task to be
at the head of the loop body; the two select branches require a parked
task, the timer branch additionally that the timer elapsed, the done
branch that the Done channel captured at Start has fired (when both
hold either branch may be taken, as for a Go select with two ready
cases).  Every mutator runs atomically, standing for its lock-guarded
body. -/
inductive Step : Act → Sys → Sys → Prop where
  | tick (s : Sys) (d : Int) (h : 0 < d) : Step (.tick d) s (advClock s d)
  | arm (s : Sys) (i : Nat) (t : LoopTask)
      (h1 : s.tasks[i]? = some t) (h2 : t.pc = .atHead) :
      Step (.arm i) s (armTask s i)
  | fire (s : Sys) (i : Nat) (t : LoopTask) (sn : Snap)
      (h1 : s.tasks[i]? = some t) (h2 : t.pc = .waiting sn)
      (h3 : sn.due ≤ s.now) :
      Step (.fire i) s (fireTask s i)
  | cancelSeen (s : Sys) (i : Nat) (t : LoopTask) (sn : Snap)
      (h1 : s.tasks[i]? = some t) (h2 : t.pc = .waiting sn)
      (h3 : ctxDone s.store t.doneCtx = true) :
      Step (.cancelSeen i) s (termTask s i)
  | setBlocking (s : Sys) (b : Bool) :
      Step (.setBlocking b) s (sysSetBlocking s b)
  | setTimezone (s : Sys) (tz : Tz) :
      Step (.setTimezone tz) s (sysSetTimezone s tz)
  | execute (s : Sys) (f : Nat) : Step (.execute f) s (sysExecute s f)
  | withContext (s : Sys) (p : Nat) (h : p < s.store.length) :
      Step (.withContext p) s (sysWithContext s p)
  | start (s : Sys) : Step .start s (startSys s)
  | stop (s : Sys) : Step .stop s (stopSys s)
  | newCtx (s : Sys) (p : Option Nat) : Step (.newCtx p) s (envNewCtx s p)
  | extCancel (s : Sys) (i : Nat) : Step (.extCancel i) s (envCancel s i)

/-- Some transition with some label. -/
def StepAny (s s' : Sys) : Prop := ∃ a, Step a s s'

/-- Reachability along the transition relation. -/
def Reach : Sys → Sys → Prop := Relation.ReflTransGen StepAny

/-- The number of loop goroutines that have not returned. -/
def countActive (s : Sys) : Nat :=
  (s.tasks.filter (fun t => t.pc != .terminated)).length

/-- The timer resource a loop goroutine currently holds. -/
def pendingTimer (t : LoopTask) : Option Int :=
  match t.pc with
  | .waiting sn => some sn.due
  | _ => none

/- Claim theorems. -/

/-- C10: each fluent mutator returns the receiver (modelled as the
updated record) and modifies only its named field: SetBlocking writes
Blocking, SetTimezone writes Timezone, Execute writes Fn, and every
other field — the schedule expression string, the compiled schedule,
the context handles, the running flag — is returned unchanged. -/
theorem c10_fluent_mutators_frame (j : Job) (b : Bool) (tz : Tz) (f : Nat) :
    (SetBlocking j b).Blocking = b ∧
    (SetBlocking j b).scheduleStr = j.scheduleStr ∧
    (SetBlocking j b).Schedule = j.Schedule ∧
    (SetBlocking j b).Timezone = j.Timezone ∧
    (SetBlocking j b).Ctx = j.Ctx ∧
    (SetBlocking j b).cancelFunc = j.cancelFunc ∧
    (SetBlocking j b).Fn = j.Fn ∧
    (SetBlocking j b).isRunning = j.isRunning ∧
    (SetTimezone j tz).Timezone = tz ∧
    (SetTimezone j tz).scheduleStr = j.scheduleStr ∧
    (SetTimezone j tz).Schedule = j.Schedule ∧
    (SetTimezone j tz).Blocking = j.Blocking ∧
    (SetTimezone j tz).Ctx = j.Ctx ∧
    (SetTimezone j tz).cancelFunc = j.cancelFunc ∧
    (SetTimezone j tz).Fn = j.Fn ∧
    (SetTimezone j tz).isRunning = j.isRunning ∧
    (Execute j f).Fn = some f ∧
    (Execute j f).scheduleStr = j.scheduleStr ∧
    (Execute j f).Schedule = j.Schedule ∧
    (Execute j f).Blocking = j.Blocking ∧
    (Execute j f).Timezone = j.Timezone ∧
    (Execute j f).Ctx = j.Ctx ∧
    (Execute j f).cancelFunc = j.cancelFunc ∧
    (Execute j f).isRunning = j.isRunning :=
  ⟨rfl, rfl, rfl, rfl, rfl, rfl, rfl, rfl,
   rfl, rfl, rfl, rfl, rfl, rfl, rfl, rfl,
   rfl, rfl, rfl, rfl, rfl, rfl, rfl, rfl⟩

/-- C8: MarshalJSON produces a record whose fields are exactly the
original schedule expression string (key schedule_str), the compiled
schedule (key schedule), the blocking flag and the timezone, and whose
value is unchanged when the callback, the context or its CancelFunc
change — the serialization omits them. -/
theorem c8_marshal_record (j : Job) (f : Option Nat) (c cf : Nat) :
    (marshalJSON j).lookup "schedule_str" = some (.str j.scheduleStr) ∧
    (marshalJSON j).lookup "schedule" = some (.sched j.Schedule) ∧
    (marshalJSON j).lookup "blocking" = some (.bool j.Blocking) ∧
    (marshalJSON j).lookup "timezone" = some (.tz j.Timezone) ∧
    (marshalJSON j).map Prod.fst =
      ["schedule_str", "schedule", "blocking", "timezone"] ∧
    marshalJSON { j with Fn := f, Ctx := c, cancelFunc := cf } =
      marshalJSON j := by
  refine ⟨?_, ?_, ?_, ?_, rfl, rfl⟩ <;> simp [marshalJSON, List.lookup]

/-- Every transition of the system leaves the retained expression
string and the compiled evaluator of the job untouched: no operation
after construction replaces them. -/
theorem step_preserves_compiled (a : Act) (s s' : Sys) (h : Step a s s') :
    s'.job.scheduleStr = s.job.scheduleStr ∧
    s'.job.Schedule = s.job.Schedule := by
  cases h with
  | tick s d hd => exact ⟨rfl, rfl⟩
  | arm s i t h1 h2 =>
    unfold armTask
    cases s.tasks[i]? <;> exact ⟨rfl, rfl⟩
  | fire s i t sn h1 h2 h3 =>
    simp [fireTask, h1, h2]
  | cancelSeen s i t sn h1 h2 h3 =>
    unfold termTask
    cases s.tasks[i]? <;> exact ⟨rfl, rfl⟩
  | setBlocking s b => exact ⟨rfl, rfl⟩
  | setTimezone s tz => exact ⟨rfl, rfl⟩
  | execute s f => exact ⟨rfl, rfl⟩
  | withContext s p hp => exact ⟨rfl, rfl⟩
  | start s =>
    unfold startSys
    by_cases hc : (s.job.Fn.isNone || s.job.isRunning) = true
    · rw [if_pos hc]; exact ⟨rfl, rfl⟩
    · rw [if_neg hc]; exact ⟨rfl, rfl⟩
  | stop s =>
    unfold stopSys
    by_cases hc : s.job.isRunning = true
    · rw [if_pos hc]; exact ⟨rfl, rfl⟩
    · rw [if_neg hc]; exact ⟨rfl, rfl⟩
  | newCtx s p => exact ⟨rfl, rfl⟩
  | extCancel s i => exact ⟨rfl, rfl⟩

/-- C6: construction counts the whitespace-delimited fields of the
expression to select the convention — exactly 6 fields selects the
seconds-prefixed parser, any other count the 5-field one — and aborts
(returns no Job, modelling the panic) exactly when the expression does
not parse under the selected convention, so any expression valid under
the convention matching its field count yields a Job. -/
theorem c6_construction_selection
    (parse : ParserKind → String → Option CronSched)
    (store : CtxStore) (s : String) :
    (parserChoice s = .withSeconds ↔ countFields s = 6) ∧
    ((Schedule parse store s).isNone ↔ parse (parserChoice s) s = none) ∧
    (countFields s = 6 → parse .withSeconds s ≠ none →
      (Schedule parse store s).isSome) ∧
    (countFields s = 5 → parse .standard s ≠ none →
      (Schedule parse store s).isSome) := by
  have hchoice : parserChoice s = .withSeconds ↔ countFields s = 6 := by
    unfold parserChoice
    by_cases h6 : countFields s = 6
    · simp [h6]
    · simp [h6]
  have hnone : (Schedule parse store s).isNone ↔
      parse (parserChoice s) s = none := by
    unfold Schedule
    cases parse (parserChoice s) s <;> simp
  refine ⟨hchoice, hnone, ?_, ?_⟩
  · intro h6 hsome
    have hch : parserChoice s = .withSeconds := hchoice.mpr h6
    unfold Schedule
    rw [hch]
    cases hp : parse .withSeconds s with
    | none => exact absurd hp hsome
    | some sc => simp
  · intro h5 hsome
    have hch : parserChoice s = .standard := by
      unfold parserChoice
      simp [show countFields s ≠ 6 by omega]
    unfold Schedule
    rw [hch]
    cases hp : parse .standard s with
    | none => exact absurd hp hsome
    | some sc => simp

/-- C6 witness: for a concrete parser, the 6-field expression
"* * * * * *" selects the seconds convention and yields a Job, and the
5-field expression "*/5 * * * *" yields a Job under the 5-field
convention. -/
theorem c6_construction_selection_witness :
    (Schedule (fun _ _ => some (fun _ t => t + 1)) [] "* * * * * *").isSome ∧
    (Schedule (fun _ _ => some (fun _ t => t + 1)) [] "*/5 * * * *").isSome :=
  ⟨(c6_construction_selection (fun _ _ => some (fun _ t => t + 1)) []
      "* * * * * *").2.2.1 (by decide) (fun h => Option.noConfusion h),
   (c6_construction_selection (fun _ _ => some (fun _ t => t + 1)) []
      "*/5 * * * *").2.2.2 (by decide) (fun h => Option.noConfusion h)⟩

/-- C7: a successfully constructed Job starts non-blocking, in UTC,
with no callback, not running, with the original expression string
retained and the compiled evaluator bound, and with a fresh
cancellation handle that is derived from no caller-supplied handle
(parent Background) and is unfired; and no later transition of the
system replaces the expression string or the evaluator. -/
theorem c7_construction_defaults
    (parse : ParserKind → String → Option CronSched)
    (store store' : CtxStore) (str : String) (j : Job)
    (h : Schedule parse store str = some (store', j)) :
    j.Blocking = false ∧
    j.Timezone = UTC ∧
    j.scheduleStr = str ∧
    j.Fn = none ∧
    j.isRunning = false ∧
    parse (parserChoice str) str = some j.Schedule ∧
    j.Ctx = store.length ∧
    j.cancelFunc = j.Ctx ∧
    store' = store ++ [{ parent := none, flag := false }] ∧
    store'[j.Ctx]? = some { parent := none, flag := false } ∧
    ctxDone store' j.Ctx = false ∧
    (∀ a s₁ s₂, Step a s₁ s₂ →
      s₂.job.scheduleStr = s₁.job.scheduleStr ∧
      s₂.job.Schedule = s₁.job.Schedule) := by
  unfold Schedule at h
  cases hp : parse (parserChoice str) str with
  | none => rw [hp] at h; exact Option.noConfusion h
  | some sc =>
    rw [hp] at h
    simp only [withCancel] at h
    injection h with h2
    injection h2 with hs hj
    subst hs
    subst hj
    refine ⟨rfl, rfl, rfl, rfl, rfl, rfl, rfl, rfl, rfl,
      List.getElem?_concat_length store _, ?_,
      fun a s₁ s₂ hst => step_preserves_compiled a s₁ s₂ hst⟩
    rw [ctxDone_unfold]
    simp only [List.getElem?_concat_length store _]
    rfl

/-- A Job value as produced by constructing from the 6-field expression
that fires every second, used as the concrete base of the executions
below. -/
def cronJob1 : Job :=
  { scheduleStr := "* * * * * *"
    Schedule := fun _ t => t + 1
    Blocking := false
    Timezone := UTC
    Ctx := 0
    cancelFunc := 0
    Fn := none
    isRunning := false }

/-- C7 witness: the constructor applied to the every-second expression
over the empty context heap yields exactly cronJob1 with its fresh,
unfired handle 0. -/
theorem c7_construction_defaults_witness :
    cronJob1.Blocking = false ∧ cronJob1.Timezone = UTC ∧
    ctxDone [{ parent := none, flag := false }] cronJob1.Ctx = false := by
  have h := c7_construction_defaults (fun _ _ => some (fun _ t => t + 1))
    [] [{ parent := none, flag := false }] "* * * * * *" cronJob1 rfl
  exact ⟨h.1, h.2.1, h.2.2.2.2.2.2.2.2.2.2.1⟩

/-- C4: Stop, under the exclusive lock, marks the job not running and
invokes the current CancelFunc exactly when the job is running: on a
never-started or already-stopped job it is an identity (no state
change, nothing cancelled, no error), and on a running job it clears
the flag, fires the current handle's Done signal and changes nothing
else. -/
theorem c4_stop_iff_running (s : Sys) :
    (s.job.isRunning = false → stopSys s = s) ∧
    (s.job.isRunning = true →
      (stopSys s).job.isRunning = false ∧
      (stopSys s).store = cancelCtx s.store s.job.cancelFunc ∧
      (∀ n, s.store[s.job.cancelFunc]? = some n →
        ctxDone (stopSys s).store s.job.cancelFunc = true) ∧
      (stopSys s).job.scheduleStr = s.job.scheduleStr ∧
      (stopSys s).job.Schedule = s.job.Schedule ∧
      (stopSys s).job.Blocking = s.job.Blocking ∧
      (stopSys s).job.Timezone = s.job.Timezone ∧
      (stopSys s).job.Ctx = s.job.Ctx ∧
      (stopSys s).job.cancelFunc = s.job.cancelFunc ∧
      (stopSys s).job.Fn = s.job.Fn ∧
      (stopSys s).tasks = s.tasks ∧
      (stopSys s).fired = s.fired ∧
      (stopSys s).now = s.now) := by
  constructor
  · intro hr
    unfold stopSys
    rw [hr]
    rfl
  · intro hr
    have hs : stopSys s =
        { s with job := { s.job with isRunning := false },
                 store := cancelCtx s.store s.job.cancelFunc } := by
      unfold stopSys
      rw [hr]
      rfl
    rw [hs]
    refine ⟨rfl, rfl, ?_, rfl, rfl, rfl, rfl, rfl, rfl, rfl, rfl, rfl, rfl⟩
    intro n hn
    exact ctxDone_cancelCtx_self s.store s.job.cancelFunc n hn

/-- The system right after constructing cronJob1, before any
configuration: one context, no loop goroutine, nothing fired. -/
def sysFresh : Sys :=
  { job := cronJob1
    store := [{ parent := none, flag := false }]
    now := 0
    tasks := []
    fired := [] }

/-- A running variant of sysFresh: callback 1 installed, flag set, one
loop goroutine at the head of its body. -/
def sysRunning : Sys :=
  { job := { cronJob1 with Fn := some 1, isRunning := true }
    store := [{ parent := none, flag := false }]
    now := 0
    tasks := [{ doneCtx := 0, pc := .atHead }]
    fired := [] }

/-- C4 witness: stopping the freshly constructed (never started) job
changes nothing; stopping a running job clears the flag and fires
handle 0. -/
theorem c4_stop_iff_running_witness :
    stopSys sysFresh = sysFresh ∧
    ctxDone (stopSys sysRunning).store 0 = true := by
  constructor
  · exact (c4_stop_iff_running sysFresh).1 rfl
  · exact ((c4_stop_iff_running sysRunning).2 rfl).2.2.1 _ rfl

/-- C5: WithContext, under the exclusive lock, first invokes the
CancelFunc of the job's existing handle (its Done signal fires and the
handle is discarded), then installs a brand-new handle — one that did
not exist in the incoming heap — derived from the supplied parent, so
that cancelling the parent fires the job's new handle while cancelling
the job's new handle leaves the parent's signal unchanged; the receiver
is returned with only its context pair replaced. -/
theorem c5_withContext_derivation (store : CtxStore) (j : Job) (p : Nat)
    (hp : p < store.length) (hold : j.cancelFunc < store.length) :
    ctxDone (WithContext store j p).1 j.cancelFunc = true ∧
    (WithContext store j p).2.Ctx = store.length ∧
    (WithContext store j p).2.cancelFunc = (WithContext store j p).2.Ctx ∧
    store[(WithContext store j p).2.Ctx]? = none ∧
    (WithContext store j p).1[(WithContext store j p).2.Ctx]? =
      some { parent := some p, flag := false } ∧
    ctxDone (cancelCtx (WithContext store j p).1 p)
      (WithContext store j p).2.Ctx = true ∧
    ctxDone (cancelCtx (WithContext store j p).1
        (WithContext store j p).2.Ctx) p =
      ctxDone (WithContext store j p).1 p ∧
    (WithContext store j p).2.scheduleStr = j.scheduleStr ∧
    (WithContext store j p).2.Schedule = j.Schedule ∧
    (WithContext store j p).2.Blocking = j.Blocking ∧
    (WithContext store j p).2.Timezone = j.Timezone ∧
    (WithContext store j p).2.Fn = j.Fn ∧
    (WithContext store j p).2.isRunning = j.isRunning := by
  have hlen1 : (cancelCtx store j.cancelFunc).length = store.length :=
    cancelCtx_length store j.cancelFunc
  have hn0 : store[j.cancelFunc]? = some store[j.cancelFunc] :=
    List.getElem?_eq_getElem hold
  have hp1 : p < (cancelCtx store j.cancelFunc).length := by omega
  have hnp : (cancelCtx store j.cancelFunc)[p]? =
      some (cancelCtx store j.cancelFunc)[p] :=
    List.getElem?_eq_getElem hp1
  refine ⟨?_, ?_, rfl, ?_, ?_, ?_, ?_, rfl, rfl, rfl, rfl, rfl, rfl⟩
  · show ctxDone ((cancelCtx store j.cancelFunc) ++
      [{ parent := some p, flag := false }]) j.cancelFunc = true
    rw [ctxDone_append _ _ _ (by omega)]
    exact ctxDone_cancelCtx_self store j.cancelFunc _ hn0
  · exact hlen1
  · show store[(cancelCtx store j.cancelFunc).length]? = none
    exact List.getElem?_eq_none (by omega)
  · exact List.getElem?_concat_length (cancelCtx store j.cancelFunc) _
  · show ctxDone (cancelCtx ((cancelCtx store j.cancelFunc) ++
      [{ parent := some p, flag := false }]) p)
      (cancelCtx store j.cancelFunc).length = true
    apply ctxDone_of_parent _ _ p false
    · rw [cancelCtx_getElem?_ne _ p _ (by omega)]
      exact List.getElem?_concat_length (cancelCtx store j.cancelFunc) _
    · omega
    · apply ctxDone_cancelCtx_self _ p (cancelCtx store j.cancelFunc)[p]
      rw [List.getElem?_append_left hp1]
      exact hnp
  · show ctxDone (cancelCtx ((cancelCtx store j.cancelFunc) ++
        [{ parent := some p, flag := false }])
        (cancelCtx store j.cancelFunc).length) p =
      ctxDone ((cancelCtx store j.cancelFunc) ++
        [{ parent := some p, flag := false }]) p
    exact ctxDone_cancelCtx_of_lt _ _ p (by omega)

/-- C5 witness: with a two-context heap (the job's handle 0 and an
environment parent 1), WithContext fires the old handle 0, and
cancelling the parent fires the newly derived handle 2. -/
theorem c5_withContext_derivation_witness :
    ctxDone (WithContext [{ parent := none, flag := false },
      { parent := none, flag := false }] cronJob1 1).1 0 = true ∧
    ctxDone (cancelCtx (WithContext [{ parent := none, flag := false },
        { parent := none, flag := false }] cronJob1 1).1 1)
      (WithContext [{ parent := none, flag := false },
        { parent := none, flag := false }] cronJob1 1).2.Ctx = true := by
  have h := c5_withContext_derivation
    [{ parent := none, flag := false }, { parent := none, flag := false }]
    cronJob1 1 (by decide) (by decide)
  exact ⟨h.1, h.2.2.2.2.2.1⟩

/-- The loop's read-locked arm writes no job field. -/
theorem armTask_job (s : Sys) (i : Nat) : (armTask s i).job = s.job := by
  unfold armTask
  cases s.tasks[i]? <;> rfl

/-- The loop's timer branch writes no job field. -/
theorem fireTask_job (s : Sys) (i : Nat) : (fireTask s i).job = s.job := by
  unfold fireTask
  rcases s.tasks[i]? with _ | t
  · rfl
  · rcases t with ⟨dc, pc⟩
    cases pc <;> rfl

/-- The loop's done branch writes no job field. -/
theorem termTask_job (s : Sys) (i : Nat) : (termTask s i).job = s.job := by
  unfold termTask
  cases s.tasks[i]? <;> rfl

/-- C9: only Stop clears the running flag.  The loop goroutine's three
steps write no job field at all; every transition other than Stop
leaves a set running flag set; and whenever the flag is set, Start is
an identity — so after the loop exits on its own (parent-derived
cancellation, or the handle being replaced after start) the flag stays
true and every later start() call is a no-op although no loop is
active. -/
theorem c9_flag_cleared_only_by_stop :
    (∀ s i, (armTask s i).job = s.job ∧ (fireTask s i).job = s.job ∧
      (termTask s i).job = s.job) ∧
    (∀ a s s', Step a s s' → a ≠ .stop → s.job.isRunning = true →
      s'.job.isRunning = true) ∧
    (∀ s, s.job.isRunning = true → startSys s = s) := by
  refine ⟨fun s i => ⟨armTask_job s i, fireTask_job s i, termTask_job s i⟩,
    ?_, ?_⟩
  · intro a s s' hst hne hr
    cases hst with
    | tick s d hd => exact hr
    | arm s i t h1 h2 => rw [armTask_job]; exact hr
    | fire s i t sn h1 h2 h3 => rw [fireTask_job]; exact hr
    | cancelSeen s i t sn h1 h2 h3 => rw [termTask_job]; exact hr
    | setBlocking s b => exact hr
    | setTimezone s tz => exact hr
    | execute s f => exact hr
    | withContext s p hp => exact hr
    | start s => simp [startSys, hr]
    | stop s => exact absurd rfl hne
    | newCtx s p => exact hr
    | extCancel s i => exact hr
  · intro s hr
    simp [startSys, hr]

/-- C9 witness: in the running system, a non-stop transition (the
clock advancing) keeps the flag set, and start() is an identity. -/
theorem c9_flag_cleared_only_by_stop_witness :
    (advClock sysRunning 1).job.isRunning = true ∧
    startSys sysRunning = sysRunning :=
  ⟨c9_flag_cleared_only_by_stop.2.1 (.tick 1) sysRunning
      (advClock sysRunning 1) (Step.tick sysRunning 1 one_pos)
      (fun h => Act.noConfusion h) rfl,
   c9_flag_cleared_only_by_stop.2.2 sysRunning rfl⟩

theorem stopSys_tasks (s : Sys) : (stopSys s).tasks = s.tasks := by
  unfold stopSys
  split <;> rfl

theorem stopSys_fired (s : Sys) : (stopSys s).fired = s.fired := by
  unfold stopSys
  split <;> rfl

theorem startSys_fired (s : Sys) : (startSys s).fired = s.fired := by
  unfold startSys
  split <;> rfl

theorem startSys_tasks_getElem? (s : Sys) (i : Nat)
    (hi : i < s.tasks.length) : (startSys s).tasks[i]? = s.tasks[i]? := by
  unfold startSys
  split
  · rfl
  · exact List.getElem?_append_left hi

theorem armTask_fired (s : Sys) (i : Nat) : (armTask s i).fired = s.fired := by
  unfold armTask
  cases s.tasks[i]? <;> rfl

theorem termTask_fired (s : Sys) (i : Nat) :
    (termTask s i).fired = s.fired := by
  unfold termTask
  cases s.tasks[i]? <;> rfl

/-- C2: once the Done signal a loop goroutine waits on (the one
captured at Start) has fired, the done branch of its select is enabled;
while the armed timer has not elapsed it is the only step that can
change that goroutine, and taking it stops the pending timer and
returns from the goroutine for good: a returned goroutine is changed by
no later transition (stop/start pairs only ever append new goroutines),
and the callback log grows only through timer-branch steps of a parked,
unreturned goroutine — so that loop never invokes the callback again. -/
theorem c2_cancellation_terminates_loop :
    (∀ s i t sn, s.tasks[i]? = some t → t.pc = .waiting sn →
      ctxDone s.store t.doneCtx = true →
      Step (.cancelSeen i) s (termTask s i)) ∧
    (∀ (a : Act) (s s' : Sys) (i : Nat) (t : LoopTask) (sn : Snap),
      Step a s s' → s.tasks[i]? = some t →
      t.pc = .waiting sn → ¬ sn.due ≤ s.now →
      s'.tasks[i]? = some t ∨
      s'.tasks[i]? = some { t with pc := .terminated }) ∧
    (∀ (s : Sys) (i : Nat) (t : LoopTask), s.tasks[i]? = some t →
      (termTask s i).tasks[i]? = some { t with pc := .terminated } ∧
      pendingTimer { t with pc := .terminated } = none) ∧
    (∀ (a : Act) (s s' : Sys) (i : Nat) (t : LoopTask),
      Step a s s' → s.tasks[i]? = some t →
      t.pc = .terminated → s'.tasks[i]? = some t) ∧
    (∀ (a : Act) (s s' : Sys), Step a s s' → s'.fired ≠ s.fired →
      ∃ i t sn, a = .fire i ∧ s.tasks[i]? = some t ∧
        t.pc = .waiting sn ∧
        s'.fired = s.fired ++
          [{ fn := s.job.Fn, ctx := s.job.Ctx, blk := sn.blk }]) := by
  have hlen : ∀ (l : List LoopTask) (i : Nat) (t : LoopTask),
      l[i]? = some t → i < l.length :=
    fun l i t h => (List.getElem?_eq_some.mp h).1
  refine ⟨?_, ?_, ?_, ?_, ?_⟩
  · intro s i t sn h1 h2 h3
    exact Step.cancelSeen s i t sn h1 h2 h3
  · intro a s s' i t sn hst h1 h2 hnow
    cases hst with
    | tick s d hd => exact Or.inl h1
    | arm s j t2 g1 g2 =>
      by_cases hij : i = j
      · subst hij
        rw [h1] at g1
        injection g1 with g1
        rw [← g1, h2] at g2
        exact PC.noConfusion g2
      · simp only [armTask, g1]
        rw [List.getElem?_set_ne (fun hh => hij hh.symm)]
        exact Or.inl h1
    | fire s j t2 sn2 g1 g2 g3 =>
      by_cases hij : i = j
      · subst hij
        rw [h1] at g1
        injection g1 with g1
        rw [← g1, h2] at g2
        injection g2 with g2
        rw [← g2] at g3
        exact absurd g3 hnow
      · simp only [fireTask, g1, g2]
        rw [List.getElem?_set_ne (fun hh => hij hh.symm)]
        exact Or.inl h1
    | cancelSeen s j t2 sn2 g1 g2 g3 =>
      by_cases hij : i = j
      · subst hij
        rw [h1] at g1
        injection g1 with g1
        subst g1
        simp only [termTask, h1]
        rw [List.getElem?_set_self (hlen _ _ _ h1)]
        exact Or.inr rfl
      · simp only [termTask, g1]
        rw [List.getElem?_set_ne (fun hh => hij hh.symm)]
        exact Or.inl h1
    | setBlocking s b => exact Or.inl h1
    | setTimezone s tz => exact Or.inl h1
    | execute s f => exact Or.inl h1
    | withContext s p hp => exact Or.inl h1
    | start s => rw [startSys_tasks_getElem? s i (hlen _ _ _ h1)]; exact Or.inl h1
    | stop s => rw [stopSys_tasks]; exact Or.inl h1
    | newCtx s p => exact Or.inl h1
    | extCancel s i2 => exact Or.inl h1
  · intro s i t h1
    constructor
    · simp only [termTask, h1]
      rw [List.getElem?_set_self (hlen _ _ _ h1)]
    · rfl
  · intro a s s' i t hst h1 h2
    cases hst with
    | tick s d hd => exact h1
    | arm s j t2 g1 g2 =>
      by_cases hij : i = j
      · subst hij
        rw [h1] at g1
        injection g1 with g1
        rw [← g1, h2] at g2
        exact PC.noConfusion g2
      · simp only [armTask, g1]
        rw [List.getElem?_set_ne (fun hh => hij hh.symm)]
        exact h1
    | fire s j t2 sn2 g1 g2 g3 =>
      by_cases hij : i = j
      · subst hij
        rw [h1] at g1
        injection g1 with g1
        rw [← g1, h2] at g2
        exact PC.noConfusion g2
      · simp only [fireTask, g1, g2]
        rw [List.getElem?_set_ne (fun hh => hij hh.symm)]
        exact h1
    | cancelSeen s j t2 sn2 g1 g2 g3 =>
      by_cases hij : i = j
      · subst hij
        rw [h1] at g1
        injection g1 with g1
        rw [← g1, h2] at g2
        exact PC.noConfusion g2
      · simp only [termTask, g1]
        rw [List.getElem?_set_ne (fun hh => hij hh.symm)]
        exact h1
    | setBlocking s b => exact h1
    | setTimezone s tz => exact h1
    | execute s f => exact h1
    | withContext s p hp => exact h1
    | start s => rw [startSys_tasks_getElem? s i (hlen _ _ _ h1)]; exact h1
    | stop s => rw [stopSys_tasks]; exact h1
    | newCtx s p => exact h1
    | extCancel s i2 => exact h1
  · intro a s s' hst hne
    cases hst with
    | tick s d hd => exact absurd rfl hne
    | arm s j t2 g1 g2 => rw [armTask_fired] at hne; exact absurd rfl hne
    | fire s j t2 sn2 g1 g2 g3 =>
      refine ⟨j, t2, sn2, rfl, g1, g2, ?_⟩
      simp only [fireTask, g1, g2]
    | cancelSeen s j t2 sn2 g1 g2 g3 =>
      rw [termTask_fired] at hne; exact absurd rfl hne
    | setBlocking s b => exact absurd rfl hne
    | setTimezone s tz => exact absurd rfl hne
    | execute s f => exact absurd rfl hne
    | withContext s p hp => exact absurd rfl hne
    | start s => rw [startSys_fired] at hne; exact absurd rfl hne
    | stop s => rw [stopSys_fired] at hne; exact absurd rfl hne
    | newCtx s p => exact absurd rfl hne
    | extCancel s i2 => exact absurd rfl hne

/-- C2 witness: in a running system whose handle 0 has been cancelled
externally, the parked goroutine's done branch is enabled and takes it
to the returned state with its timer released. -/
theorem c2_cancellation_terminates_loop_witness :
    Step (.cancelSeen 0)
      { job := { cronJob1 with Fn := some 1, isRunning := true },
        store := [{ parent := none, flag := true }], now := 0,
        tasks := [{ doneCtx := 0, pc := .waiting { due := 1, blk := false } }],
        fired := [] }
      (termTask
        { job := { cronJob1 with Fn := some 1, isRunning := true },
          store := [{ parent := none, flag := true }], now := 0,
          tasks := [{ doneCtx := 0, pc := .waiting { due := 1, blk := false } }],
          fired := [] } 0) :=
  c2_cancellation_terminates_loop.1 _ 0
    { doneCtx := 0, pc := .waiting { due := 1, blk := false } }
    { due := 1, blk := false } (by decide) (by decide) (by decide)

/-- Configure the callback: the system after sysFresh.Execute(1). -/
def trace1 : Sys := sysExecute sysFresh 1

/-- Start the job: one loop goroutine at the head of its body. -/
def trace2 : Sys := startSys trace1

/-- The goroutine's first read-locked arm: parked, timer due at 1. -/
def trace3 : Sys := armTask trace2 0

/-- Stop while the goroutine is parked: flag cleared, handle 0 fired. -/
def c3s4 : Sys := stopSys trace3

/-- Start again right away: a second goroutine is launched while the
first, still parked, has not yet observed the cancellation. -/
def c3s5 : Sys := startSys c3s4

/-- C3 amended: start() under the exclusive lock is an identity when
the callback is unset or the job is already running, and otherwise
sets the flag and launches exactly one loop goroutine, so start is
idempotent and start-start yields exactly one goroutine.  (The further
claim that at most one active loop exists at ALL times fails: see the
counterexample — after stop() a new start() launches a second goroutine
while the first is still parked, terminating only once it observes the
cancellation stop() triggered.) -/
theorem c3_start_noop_guard (s : Sys) :
    (s.job.Fn = none ∨ s.job.isRunning = true → startSys s = s) ∧
    (s.job.Fn ≠ none → s.job.isRunning = false →
      startSys s =
        { s with job := { s.job with isRunning := true },
                 tasks := s.tasks ++
                   [{ doneCtx := s.job.Ctx, pc := .atHead }] }) ∧
    startSys (startSys s) = startSys s := by
  refine ⟨?_, ?_, ?_⟩
  · intro hor
    unfold startSys
    rcases hor with hf | hr
    · rw [hf]
      rfl
    · rw [hr]
      simp
  · intro hf hr
    have hn : s.job.Fn.isNone = false := by
      cases hFn : s.job.Fn with
      | none => exact absurd hFn hf
      | some v => rfl
    unfold startSys
    rw [hn, hr]
    rfl
  · by_cases hc : (s.job.Fn.isNone || s.job.isRunning) = true
    · have h1 : startSys s = s := by
        unfold startSys
        rw [if_pos hc]
      rw [h1, h1]
    · have h1 : startSys s =
          { s with job := { s.job with isRunning := true },
                   tasks := s.tasks ++
                     [{ doneCtx := s.job.Ctx, pc := .atHead }] } := by
        unfold startSys
        rw [if_neg hc]
      rw [h1]
      simp [startSys]

/-- C3 witness: starting the unconfigured job is an identity, and the
first start after configuring launches exactly the one goroutine. -/
theorem c3_start_noop_guard_witness :
    startSys sysFresh = sysFresh ∧
    (startSys trace1).tasks = trace1.tasks ++
      [{ doneCtx := 0, pc := .atHead }] := by
  constructor
  · exact (c3_start_noop_guard sysFresh).1 (Or.inl rfl)
  · have h := (c3_start_noop_guard trace1).2.1
      (fun hh => Option.noConfusion hh) rfl
    rw [h]
    rfl

/-- C3 counterexample: the run configure, start, arm, stop, start is a
real execution of the code, and it ends with TWO unreturned loop
goroutines of the same Job — the parked one from the first start (which
has yet to observe the cancellation stop() triggered) and the fresh one
from the second start — refuting the claim's invariant that at most one
active scheduling loop exists per Job instance at any time. -/
theorem c3_counterexample_two_active_loops :
    Reach sysFresh c3s5 ∧ countActive c3s5 = 2 ∧ ¬ countActive c3s5 ≤ 1 := by
  refine ⟨?_, by decide, by decide⟩
  have h1 : StepAny sysFresh trace1 := ⟨_, Step.execute sysFresh 1⟩
  have h2 : StepAny trace1 trace2 := ⟨_, Step.start trace1⟩
  have h3 : StepAny trace2 trace3 :=
    ⟨_, Step.arm trace2 0 { doneCtx := 0, pc := .atHead }
      (by decide) (by decide)⟩
  have h4 : StepAny trace3 c3s4 := ⟨_, Step.stop trace3⟩
  have h5 : StepAny c3s4 c3s5 := ⟨_, Step.start c3s4⟩
  exact Relation.ReflTransGen.head h1 (Relation.ReflTransGen.head h2
    (Relation.ReflTransGen.head h3 (Relation.ReflTransGen.head h4
      (Relation.ReflTransGen.single h5))))

/-- C1 amended: each iteration's read-locked head snapshots the
timezone, the evaluator and the blocking flag — fixing the armed timer
and this fire's dispatch mode — and setBlocking/setTimezone completing
while an iteration is armed leave it untouched, acting from the next
arm on.  But the Done channel is captured once per goroutine at Start
and never re-read; the callback and context are read at invocation
time, so setCallback acts on the very next fire, mid-iteration; and
withCancellation after start cancels the old handle out from under the
running goroutine, which keeps waiting on it — the new handle only
governs goroutines launched by a later start. -/
theorem c1_snapshot_discipline :
    (∀ (s : Sys) (i : Nat) (t : LoopTask), s.tasks[i]? = some t →
      t.pc = .atHead →
      (armTask s i).tasks[i]? =
        some { t with pc := PC.waiting ⟨s.job.Schedule s.job.Timezone s.now, s.job.Blocking⟩ }) ∧
    (∀ (s : Sys) (b : Bool), (sysSetBlocking s b).tasks = s.tasks) ∧
    (∀ (s : Sys) (tz : Tz), (sysSetTimezone s tz).tasks = s.tasks) ∧
    (∀ (s : Sys) (f : Nat), (sysExecute s f).tasks = s.tasks) ∧
    (∀ (a : Act) (s s' : Sys) (i : Nat) (t : LoopTask), Step a s s' →
      s.tasks[i]? = some t →
      ∃ t' : LoopTask, s'.tasks[i]? = some t' ∧ t'.doneCtx = t.doneCtx) ∧
    (∀ (s : Sys) (i : Nat) (t : LoopTask) (sn : Snap),
      s.tasks[i]? = some t → t.pc = .waiting sn →
      (fireTask s i).fired = s.fired ++
        [{ fn := s.job.Fn, ctx := s.job.Ctx, blk := sn.blk }]) ∧
    (∀ (s : Sys) (p : Nat) (n : CtxNode),
      s.store[s.job.cancelFunc]? = some n →
      ctxDone (sysWithContext s p).store s.job.cancelFunc = true ∧
      (sysWithContext s p).tasks = s.tasks) := by
  have hlen : ∀ (l : List LoopTask) (i : Nat) (t : LoopTask),
      l[i]? = some t → i < l.length :=
    fun l i t h => (List.getElem?_eq_some.mp h).1
  refine ⟨?_, fun s b => rfl, fun s tz => rfl, fun s f => rfl, ?_, ?_, ?_⟩
  · intro s i t h1 h2
    simp only [armTask, h1]
    rw [List.getElem?_set_self (hlen _ _ _ h1)]
  · intro a s s' i t hst h1
    cases hst with
    | tick s d hd => exact ⟨t, h1, rfl⟩
    | arm s j t2 g1 g2 =>
      by_cases hij : i = j
      · subst hij
        rw [h1] at g1
        injection g1 with g1
        subst g1
        simp only [armTask, h1]
        rw [List.getElem?_set_self (hlen _ _ _ h1)]
        exact ⟨_, rfl, rfl⟩
      · simp only [armTask, g1]
        rw [List.getElem?_set_ne (fun hh => hij hh.symm)]
        exact ⟨t, h1, rfl⟩
    | fire s j t2 sn2 g1 g2 g3 =>
      by_cases hij : i = j
      · subst hij
        rw [h1] at g1
        injection g1 with g1
        subst g1
        simp only [fireTask, h1, g2]
        rw [List.getElem?_set_self (hlen _ _ _ h1)]
        exact ⟨_, rfl, rfl⟩
      · simp only [fireTask, g1, g2]
        rw [List.getElem?_set_ne (fun hh => hij hh.symm)]
        exact ⟨t, h1, rfl⟩
    | cancelSeen s j t2 sn2 g1 g2 g3 =>
      by_cases hij : i = j
      · subst hij
        rw [h1] at g1
        injection g1 with g1
        subst g1
        simp only [termTask, h1]
        rw [List.getElem?_set_self (hlen _ _ _ h1)]
        exact ⟨_, rfl, rfl⟩
      · simp only [termTask, g1]
        rw [List.getElem?_set_ne (fun hh => hij hh.symm)]
        exact ⟨t, h1, rfl⟩
    | setBlocking s b => exact ⟨t, h1, rfl⟩
    | setTimezone s tz => exact ⟨t, h1, rfl⟩
    | execute s f => exact ⟨t, h1, rfl⟩
    | withContext s p hp => exact ⟨t, h1, rfl⟩
    | start s =>
      rw [startSys_tasks_getElem? s i (hlen _ _ _ h1)]
      exact ⟨t, h1, rfl⟩
    | stop s =>
      rw [stopSys_tasks]
      exact ⟨t, h1, rfl⟩
    | newCtx s p => exact ⟨t, h1, rfl⟩
    | extCancel s i2 => exact ⟨t, h1, rfl⟩
  · intro s i t sn h1 h2
    simp only [fireTask, h1, h2]
  · intro s p n hn
    constructor
    · show ctxDone ((cancelCtx s.store s.job.cancelFunc) ++
        [{ parent := some p, flag := false }]) s.job.cancelFunc = true
      have hb : s.job.cancelFunc < s.store.length :=
        (List.getElem?_eq_some.mp hn).1
      rw [ctxDone_append _ _ _ (by rw [cancelCtx_length]; exact hb)]
      exact ctxDone_cancelCtx_self s.store s.job.cancelFunc n hn
    · rfl

/-- C1 witness: the first arm of the started system parks the
goroutine with the timer due at 1 and the non-blocking snapshot, and a
post-start withContext fires the old handle 0. -/
theorem c1_snapshot_discipline_witness :
    (armTask trace2 0).tasks[0]? =
      some { doneCtx := 0, pc := PC.waiting ⟨1, false⟩ } ∧
    ctxDone (sysWithContext sysRunning 0).store 0 = true := by
  constructor
  · exact c1_snapshot_discipline.1 trace2 0 { doneCtx := 0, pc := .atHead }
      (by decide) rfl
  · exact (c1_snapshot_discipline.2.2.2.2.2.2 sysRunning 0
      { parent := none, flag := false } rfl).1

/-- Replace the callback mid-iteration: Execute(2) completes while the
goroutine is parked on the timer armed at trace3. -/
def c1s4 : Sys := sysExecute trace3 2

/-- The armed timer elapses. -/
def c1s5 : Sys := advClock c1s4 1

/-- The fire of the iteration armed before the Execute(2): it invokes
callback 2, the one installed mid-iteration. -/
def c1s6 : Sys := fireTask c1s5 0

/-- The environment creates its own context (handle 1). -/
def c1s7 : Sys := envNewCtx c1s6 none

/-- WithContext(1) after start: cancels handle 0, installs handle 2
derived from 1; the running goroutine still holds handle 0. -/
def c1s8 : Sys := sysWithContext c1s7 1

/-- The next arm: the goroutine parks again, still on Done channel 0. -/
def c1s9 : Sys := armTask c1s8 0

/-- The goroutine observes the cancellation of the OLD handle 0 and
returns, although the newly installed handle 2 never fired. -/
def c1s10 : Sys := termTask c1s9 0

/-- C1 counterexample: a real execution of the code refuting the claim
at the concrete Job built from the every-second expression with
callback 1.  (i) The iteration is armed at trace3 while the installed
callback is 1; Execute(2) then completes mid-iteration, and the fire of
that same iteration invokes callback 2 — the mutation took effect
mid-iteration, not at the next one.  (ii) WithContext(1) completes
after start, yet the loop's subsequent wait still uses Done channel 0
captured at Start (the loop never re-reads the handle under its read
lock); the loop then terminates because the OLD handle was cancelled,
while the newly installed handle 2 never fires — the handle installed
after start does not govern subsequent iterations. -/
theorem c1_counterexample_stale_done_channel :
    Reach sysFresh c1s10 ∧
    Step (.arm 0) trace2 trace3 ∧
    trace2.job.Fn = some 1 ∧
    Step (.execute 2) trace3 c1s4 ∧
    Step (.fire 0) c1s5 c1s6 ∧
    c1s6.fired = [{ fn := some 2, ctx := 0, blk := false }] ∧
    Step (.withContext 1) c1s7 c1s8 ∧
    c1s8.job.Ctx = 2 ∧
    c1s9.tasks = [{ doneCtx := 0, pc := PC.waiting ⟨2, false⟩ }] ∧
    Step (.cancelSeen 0) c1s9 c1s10 ∧
    c1s10.tasks = [{ doneCtx := 0, pc := PC.terminated }] ∧
    ctxDone c1s10.store 2 = false := by
  have harm : Step (.arm 0) trace2 trace3 :=
    Step.arm trace2 0 { doneCtx := 0, pc := .atHead } (by decide) (by decide)
  have hexe : Step (.execute 2) trace3 c1s4 := Step.execute trace3 2
  have htick : Step (.tick 1) c1s4 c1s5 := Step.tick c1s4 1 one_pos
  have hfire : Step (.fire 0) c1s5 c1s6 :=
    Step.fire c1s5 0 { doneCtx := 0, pc := .waiting ⟨1, false⟩ } ⟨1, false⟩
      (by decide) (by decide) (by decide)
  have hnew : Step (.newCtx none) c1s6 c1s7 := Step.newCtx c1s6 none
  have hwc : Step (.withContext 1) c1s7 c1s8 :=
    Step.withContext c1s7 1 (by decide)
  have harm2 : Step (.arm 0) c1s8 c1s9 :=
    Step.arm c1s8 0 { doneCtx := 0, pc := .atHead } (by decide) (by decide)
  have hterm : Step (.cancelSeen 0) c1s9 c1s10 :=
    Step.cancelSeen c1s9 0 { doneCtx := 0, pc := .waiting ⟨2, false⟩ }
      ⟨2, false⟩ (by decide) (by decide) (by decide)
  refine ⟨?_, harm, rfl, hexe, hfire, by decide, hwc, rfl, by decide,
    hterm, by decide, by decide⟩
  exact Relation.ReflTransGen.head ⟨_, Step.execute sysFresh 1⟩
    (Relation.ReflTransGen.head ⟨_, Step.start trace1⟩
    (Relation.ReflTransGen.head ⟨_, harm⟩
    (Relation.ReflTransGen.head ⟨_, hexe⟩
    (Relation.ReflTransGen.head ⟨_, htick⟩
    (Relation.ReflTransGen.head ⟨_, hfire⟩
    (Relation.ReflTransGen.head ⟨_, hnew⟩
    (Relation.ReflTransGen.head ⟨_, hwc⟩
    (Relation.ReflTransGen.head ⟨_, harm2⟩
    (Relation.ReflTransGen.single ⟨_, hterm⟩)))))))))
